import Mathlib

/-!
Verification of the temporal-planning and failure-recovery core of the
StudentAutocommitter repository, shallowly embedded from
`src/scheduler.py` and `src/error_handler.py`.

Times of day are modelled in minutes: a `datetime` within the planning day
becomes its minute-of-day.  Fractional minutes arising from interval
division (`timedelta` arithmetic) are represented exactly as rationals.
Randomness (`random.randint` draws) is passed in explicitly as parameters,
so every theorem quantifies over the possible draws.
-/

/-- Python list slicing `l[-k:]`: the last `k` elements, except that for
`k = 0` the slice `l[-0:]` is `l[0:]`, i.e. the whole list. -/
def lastSlice (k : Nat) (l : List α) : List α :=
  if k = 0 then l else l.drop (l.length - k)

/-- The capacity truncation `if len(q) > max_size: q = q[-max_size:]`
shared by `ErrorHandler._add_to_pending_queue` (source lines 144-147) and
`Scheduler._add_to_retry_queue` (source lines 356-359). -/
def truncateQueue (k : Nat) (l : List α) : List α :=
  if k < l.length then lastSlice k l else l

/-- Body of `Scheduler._generate_commit_times` after the effective start
time has been fixed (source lines 237-266): empty list for `n ≤ 0`, the
window midpoint for `n = 1`, and otherwise `n` evenly spaced points,
optionally jittered (`stealth_mode.vary_commit_times`), clamped back into
`[startTime, endTime]`, and sorted ascending. -/
def generate_commit_times_core (n : Int) (startTime endTime : ℚ) (vary : Bool)
    (jit : Nat → Int) : List ℚ :=
  if n ≤ 0 then []
  else if n = 1 then [startTime + (endTime - startTime) / 2]
  else
    let interval : ℚ := (endTime - startTime) / ((n : ℚ) - 1)
    ((List.range n.toNat).map (fun (i : Nat) =>
      let t0 : ℚ := startTime + interval * (i : ℚ)
      let t1 : ℚ := if vary then t0 + (jit i : ℚ) else t0
      if t1 < startTime then startTime
      else if endTime < t1 then endTime
      else t1)).insertionSort (· ≤ ·)

/-- `Scheduler._generate_commit_times` (source lines 225-266).  `sh`/`eh`
are the active hours, `now` the current minute-of-day.  When the window
start `sh*60` is already in the past, the source executes
`now.replace(minute=now.minute + 5)`, which raises `ValueError` whenever
`now.minute + 5 > 59` (modelled by `Except.error ()`) and otherwise yields
`now + 5` minutes as the effective start. -/
def generate_commit_times (n : Int) (sh eh now : Nat) (vary : Bool)
    (jit : Nat → Int) : Except Unit (List ℚ) :=
  if sh * 60 < now then
    if 55 ≤ now % 60 then Except.error ()
    else Except.ok (generate_commit_times_core n ((now : ℚ) + 5) ((eh : ℚ) * 60) vary jit)
  else Except.ok (generate_commit_times_core n ((sh : ℚ) * 60) ((eh : ℚ) * 60) vary jit)

/-- Post-generation perturbation applied by `Scheduler._plan_daily_commits`
(source lines 206-210): when `stealth_mode.random_delays` is enabled, every
generated time is shifted by an independent draw from `randint(0, 30)`
minutes, with no clamping back into the active window. -/
def scheduledTimes (randomDelays : Bool) (delays : Nat → Int) (times : List ℚ) : List ℚ :=
  times.mapIdx (fun i t => if randomDelays then t + (delays i : ℚ) else t)

/-- One record of `pending_commits.json` as written by
`ErrorHandler._add_to_pending_queue` (source lines 131-140).  The opaque
payloads (`commit_data`, `error_info`) are modelled as naturals. -/
structure PendingItem where
  addedAt : Int
  payload : Nat
  errorInfo : Nat
  retryCount : Nat
  nextRetry : Int
  maxRetries : Nat
deriving DecidableEq

/-- Outcome of one `retry_callback(item["commit_data"])` invocation: the
callback returns `{"success": True}`, returns a non-success result, or
raises an exception. -/
inductive RetryOutcome where
  | success : RetryOutcome
  | failure : RetryOutcome
  | raised : RetryOutcome
deriving DecidableEq

/-- The per-sweep counters built by `ErrorHandler.process_pending_commits`
(source lines 189-194). -/
structure SweepStats where
  processed : Nat
  succeeded : Nat
  failed : Nat
  removed : Nat
deriving DecidableEq

/-- Pointwise sum of sweep counters. -/
def SweepStats.add (a b : SweepStats) : SweepStats :=
  ⟨a.processed + b.processed, a.succeeded + b.succeeded,
   a.failed + b.failed, a.removed + b.removed⟩

/-- Disposition of a single queue item in one pass of the loop of
`ErrorHandler.process_pending_commits` (source lines 203-241): `none` means
the item is not carried into `new_pending`.  A due item's callback result
drives the branch; an item that is not yet due is kept unchanged. -/
def sweepItemStats (cb : Nat → RetryOutcome) (delay now : Int)
    (it : PendingItem) : Option PendingItem × SweepStats :=
  if it.nextRetry ≤ now then
    match cb it.payload with
    | RetryOutcome.success => (none, ⟨1, 1, 0, 1⟩)
    | RetryOutcome.failure =>
        if it.retryCount + 1 < it.maxRetries then
          (some { it with retryCount := it.retryCount + 1, nextRetry := now + delay },
           ⟨1, 0, 1, 0⟩)
        else (none, ⟨1, 0, 1, 1⟩)
    | RetryOutcome.raised => (some it, ⟨1, 0, 1, 0⟩)
  else (some it, ⟨0, 0, 0, 0⟩)

/-- Queue component of `sweepItemStats`. -/
def sweepItem (cb : Nat → RetryOutcome) (delay now : Int)
    (it : PendingItem) : Option PendingItem :=
  (sweepItemStats cb delay now it).1

/-- `ErrorHandler.process_pending_commits` (source lines 179-259) at a
fixed sweep instant `now`: iterates over the stored queue in list order,
invokes the callback on each due item, and returns the new queue
(`new_pending`, preserving relative order) together with the counters. -/
def process_pending_commits (cb : Nat → RetryOutcome) (delay now : Int) :
    List PendingItem → List PendingItem × SweepStats
  | [] => ([], ⟨0, 0, 0, 0⟩)
  | it :: rest =>
      let d := sweepItemStats cb delay now it
      let r := process_pending_commits cb delay now rest
      (d.1.toList ++ r.1, d.2.add r.2)

/-- The sequence of items on which `retry_callback` is invoked during one
sweep, in invocation order: the source's `for item in pending` loop visits
the stored list in order and calls the callback exactly on the items with
`next_retry ≤ now`. -/
def sweepInvocations (now : Int) (q : List PendingItem) : List PendingItem :=
  q.filter (fun it => decide (it.nextRetry ≤ now))

/-- Iterated sweeps: runs `process_pending_commits` once per entry of
`nows`, threading the queue, and accumulates the number of callback
invocations (the `processed` counter of each sweep). -/
def runRetrySweeps (cb : Nat → RetryOutcome) (delay : Int) :
    List PendingItem → List Int → List PendingItem × Nat
  | q, [] => (q, 0)
  | q, now :: rest =>
      let r := process_pending_commits cb delay now q
      let rr := runRetrySweeps cb delay r.1 rest
      (rr.1, r.2.processed + rr.2)

/-- The sweep times `nows` keep an item due throughout: the first sweep is
at or after the item's current `nextRetry`, and each later sweep is at or
after the `now + delay` reschedule written by its predecessor. -/
def ConsecDue (delay : Int) : Int → List Int → Prop
  | _, [] => True
  | t, now :: rest => t ≤ now ∧ ConsecDue delay (now + delay) rest

/-- The dictionary returned by `ErrorHandler._add_to_pending_queue`
(source lines 157-162).  It has no field reporting an eviction. -/
structure EnqueueResult where
  handled : Bool
  addedToQueue : Bool
  queuePosition : Nat
  nextRetry : Int
deriving DecidableEq

/-- The persisted files owned by `ErrorHandler`: the pending queue
(`pending_commits.json`), the error log (`errors.json`, only ever written
by `_save_error`), and the `pending_commits` counter of
`statistics.json`. -/
structure DataState where
  pending : List PendingItem
  errorLog : List Nat
  statsPendingCommits : Nat
deriving DecidableEq

/-- The state right after `ErrorHandler._init_data_files` on a fresh
installation: empty queue, empty error log, zero pending counter. -/
def emptyDataState : DataState := ⟨[], [], 0⟩

/-- `ErrorHandler._add_to_pending_queue` (source lines 123-166): appends a
fresh item (`retry_count = 0`, `next_retry = now + delay`), truncates the
list to its last `maxSize` entries when it exceeds capacity
(`pending = pending[-max_size:]`), persists it, updates the
`pending_commits` statistic, and returns the result dictionary.  The error
log is not touched: nothing records the eviction. -/
def add_to_pending_queue (maxSize : Nat) (delay : Int) (maxRetries : Nat)
    (now : Int) (payload errInfo : Nat) (s : DataState) :
    DataState × EnqueueResult :=
  let item : PendingItem := ⟨now, payload, errInfo, 0, now + delay, maxRetries⟩
  let p2 := truncateQueue maxSize (s.pending ++ [item])
  ({ s with pending := p2, statsPendingCommits := p2.length },
   ⟨true, true, p2.length, now + delay⟩)

/-- A sequence of enqueues: each pair is the wall-clock instant of the
failure and the opaque payload handed to `_add_to_pending_queue`. -/
def enqueueSeq (maxSize : Nat) (delay : Int) (maxRetries : Nat) :
    DataState → List (Int × Nat) → DataState
  | s, [] => s
  | s, (now, payload) :: rest =>
      enqueueSeq maxSize delay maxRetries
        (add_to_pending_queue maxSize delay maxRetries now payload 0 s).1 rest

/-- The counters of `statistics.json` (source lines 58-65), with the
opaque `last_error`/`start_time` fields omitted and `last_update` kept as
an abstract instant. -/
structure Stats where
  totalCommits : Nat
  successfulCommits : Nat
  failedCommits : Nat
  pendingCommits : Nat
  lastUpdate : Int
deriving DecidableEq

/-- `ErrorHandler._update_stats` (source lines 261-283): adds `count` to
`total_commits`, and to `successful_commits` and/or `failed_commits`
according to the flags, then stamps `last_update`. -/
def update_stats (successful failed : Bool) (count : Nat) (now : Int)
    (s : Stats) : Stats :=
  { s with
    totalCommits := s.totalCommits + count
    successfulCommits :=
      if successful then s.successfulCommits + count else s.successfulCommits
    failedCommits :=
      if failed then s.failedCommits + count else s.failedCommits
    lastUpdate := now }

/-- A sequence of completion recordings, each a success or a failure with
a count, replayed through `update_stats` the way every call site does it:
exactly one of the two flags set. -/
def recordCompletions : Stats → List (Bool × Nat × Int) → Stats
  | s, [] => s
  | s, (succ, count, now) :: rest =>
      recordCompletions (update_stats succ (!succ) count now s) rest

/-- Result of the Repository Port call `git_ops.create_commit`: a commit
hash, or an exception carrying an opaque error. -/
inductive CommitResult where
  | ok : Nat → CommitResult
  | failed : Nat → CommitResult
deriving DecidableEq

/-- The scheduler's in-memory counters touched by
`Scheduler._create_scheduled_commit` (source lines 41-46, 287-298). -/
structure SchedulerStats where
  commitsCreated : Nat
  lastCommitTime : Option Int
  errorCount : Nat
deriving DecidableEq

/-- One record of the scheduler-side retry queue written by
`Scheduler._add_to_retry_queue` (source lines 346-354). -/
structure RetryEntry where
  scheduledTime : Int
  errorMsg : Nat
  retryCount : Nat
  nextRetry : Int
deriving DecidableEq

/-- Observable world of a scheduled job: the scheduler statistics, the
scheduler-side retry queue file, and the trace of Repository Port calls
(each `create_commit(changes, message)` invocation). -/
structure SchedulerWorld where
  stats : SchedulerStats
  retryQueue : List RetryEntry
  commitCalls : List (List Nat × Nat)
deriving DecidableEq

/-- `Scheduler._add_to_retry_queue` (source lines 334-368): appends an
entry with `retry_count = 0` and `next_retry = now + delay`, truncated to
the last `maxSize` entries. -/
def add_to_retry_queue (maxSize : Nat) (delay : Int) (now scheduledTime : Int)
    (errorMsg : Nat) (w : SchedulerWorld) : SchedulerWorld :=
  { w with retryQueue :=
      truncateQueue maxSize (w.retryQueue ++ [⟨scheduledTime, errorMsg, 0, now + delay⟩]) }

/-- `Scheduler._create_scheduled_commit` (source lines 268-301) with its
collaborators made explicit: `changes` is what `generate_changes`
returned (the empty list models a falsy/empty dict), `commitResult` the
behaviour of the Repository Port.  An empty `changes` returns before
anything is touched; otherwise the commit call is recorded and, on
failure, the error counter rises and — when queueing is enabled and a
scheduled time is known — the retry queue gains an entry. -/
def create_scheduled_commit (queueEnabled : Bool) (maxSize : Nat)
    (delay : Int) (changes : List Nat) (message : Nat)
    (commitResult : CommitResult) (scheduledTime : Option Int) (now : Int)
    (w : SchedulerWorld) : SchedulerWorld :=
  if changes = [] then w
  else
    let w1 := { w with commitCalls := w.commitCalls ++ [(changes, message)] }
    match commitResult with
    | CommitResult.ok _ =>
        { w1 with stats :=
          { w1.stats with
            commitsCreated := w1.stats.commitsCreated + 1
            lastCommitTime := some now } }
    | CommitResult.failed err =>
        let w2 := { w1 with stats :=
          { w1.stats with errorCount := w1.stats.errorCount + 1 } }
        match queueEnabled, scheduledTime with
        | true, some st => add_to_retry_queue maxSize delay now st err w2
        | _, _ => w2

/-- Control state of `Scheduler`: the `is_running` flag and the
`stop_event`. -/
structure SchedulerCtl where
  isRunning : Bool
  stopEventSet : Bool
deriving DecidableEq

/-- `Scheduler.stop` (source lines 85-104): an early `return True` when not
running; otherwise clears `is_running`, sets the stop event, joins the
loop thread with the fixed bound `timeout=10` seconds (the wait is bounded,
so the model is a total function), and returns `True`. -/
def stopScheduler (s : SchedulerCtl) : SchedulerCtl × Bool :=
  if s.isRunning = false then (s, true)
  else ({ isRunning := false, stopEventSet := true }, true)

/-! ## Helper lemmas -/

theorem generate_commit_times_core_length (n : Int) (s e : ℚ) (vary : Bool)
    (jit : Nat → Int) :
    (generate_commit_times_core n s e vary jit).length = n.toNat := by
  unfold generate_commit_times_core
  split
  · rename_i h
    simp [Int.toNat_of_nonpos h]
  · split
    · rename_i h1
      simp [h1]
    · simp [List.length_insertionSort]

theorem clamp_bounds (s e t : ℚ) (hse : s ≤ e) :
    s ≤ (if t < s then s else if e < t then e else t) ∧
      (if t < s then s else if e < t then e else t) ≤ e := by
  split
  · exact ⟨le_refl s, hse⟩
  · split
    · exact ⟨hse, le_refl e⟩
    · rename_i h1 h2
      exact ⟨le_of_not_lt h1, le_of_not_lt h2⟩

theorem mem_generate_commit_times_core (n : Int) (s e : ℚ) (vary : Bool)
    (jit : Nat → Int) (hse : s ≤ e) (t : ℚ)
    (ht : t ∈ generate_commit_times_core n s e vary jit) :
    s ≤ t ∧ t ≤ e := by
  unfold generate_commit_times_core at ht
  split at ht
  · simp at ht
  · split at ht
    · simp only [List.mem_singleton] at ht
      subst ht
      constructor <;> [linarith; linarith]
    · rw [List.mem_insertionSort] at ht
      simp only [List.mem_map, List.mem_range] at ht
      obtain ⟨i, _, hi⟩ := ht
      subst hi
      exact clamp_bounds s e _ hse

theorem sorted_generate_commit_times_core (n : Int) (s e : ℚ) (vary : Bool)
    (jit : Nat → Int) :
    (generate_commit_times_core n s e vary jit).Sorted (· ≤ ·) := by
  unfold generate_commit_times_core
  split
  · simp
  · split
    · simp
    · exact List.sorted_insertionSort _ _

theorem process_pending_fst (cb : Nat → RetryOutcome) (delay now : Int)
    (q : List PendingItem) :
    (process_pending_commits cb delay now q).1
      = q.filterMap (sweepItem cb delay now) := by
  induction q with
  | nil => simp [process_pending_commits]
  | cons it rest ih =>
      rcases h : (sweepItemStats cb delay now it).1 with _ | x <;>
        simp [process_pending_commits, List.filterMap_cons, sweepItem, h, ih]

theorem runRetrySweeps_nil_queue (cb : Nat → RetryOutcome) (delay : Int)
    (nows : List Int) : runRetrySweeps cb delay [] nows = ([], 0) := by
  induction nows with
  | nil => rfl
  | cons now rest ih =>
      simp [runRetrySweeps, process_pending_commits, ih]

/-! ## Claim theorems -/

/-- Claim C3: after any sequence of completion recordings, each of which
records either a success or a failure with an arbitrary count, the
statistics invariant totalCommits = successfulCommits + failedCommits
holds at every observation point, provided it held initially. -/
theorem C3_stats_invariant (s : Stats)
    (hinv : s.totalCommits = s.successfulCommits + s.failedCommits)
    (events : List (Bool × Nat × Int)) :
    (recordCompletions s events).totalCommits =
      (recordCompletions s events).successfulCommits +
        (recordCompletions s events).failedCommits := by
  induction events generalizing s with
  | nil => simpa [recordCompletions] using hinv
  | cons ev rest ih =>
      obtain ⟨succ, count, now⟩ := ev
      simp only [recordCompletions]
      apply ih
      cases succ <;> simp [update_stats] <;> omega

/-- Witness for C3 at the freshly initialised statistics file and a
concrete success/failure sequence. -/
theorem C3_stats_invariant_witness :
    (recordCompletions ⟨0, 0, 0, 0, 0⟩ [(true, 1, 0), (false, 2, 5)]).totalCommits =
      (recordCompletions ⟨0, 0, 0, 0, 0⟩ [(true, 1, 0), (false, 2, 5)]).successfulCommits +
        (recordCompletions ⟨0, 0, 0, 0, 0⟩ [(true, 1, 0), (false, 2, 5)]).failedCommits :=
  C3_stats_invariant ⟨0, 0, 0, 0, 0⟩ rfl [(true, 1, 0), (false, 2, 5)]

/-- Claim C6: when the drawn count is 1 and the plan is computed at or
before the window start, the generated plan is exactly the midpoint of the
active window, for every jitter configuration (no jitter is applied in
the single-commit branch).  In particular, active hours 9 to 21 give the
single timestamp 900 minutes = 15:00. -/
theorem C6_single_commit_midpoint (sh eh now : Nat) (vary : Bool)
    (jit : Nat → Int) (hnow : now ≤ sh * 60) :
    generate_commit_times 1 sh eh now vary jit =
      Except.ok [((sh : ℚ) * 60 + (eh : ℚ) * 60) / 2] := by
  have hbranch : ¬ sh * 60 < now := not_lt.mpr hnow
  simp only [generate_commit_times, if_neg hbranch, generate_commit_times_core]
  norm_num
  ring_nf

/-- Witness for C6: end-to-end scenario A, quota drawn 1, active hours
9 to 21, jitter irrelevant, computed at midnight: the plan is the single
timestamp 900 minutes after midnight, i.e. 15:00. -/
theorem C6_single_commit_midpoint_witness :
    generate_commit_times 1 9 21 0 false (fun _ => 0) =
      Except.ok [(900 : ℚ)] := by
  have h := C6_single_commit_midpoint 9 21 0 false (fun _ => 0) (by norm_num)
  rw [h]
  norm_num

/-- Claim C8: a scheduled job whose Change Producer yields an empty
payload is skipped without error: the returned world equals the input
world, so no Repository Port call is recorded, no retry-queue entry is
created, and the statistics are unchanged. -/
theorem C8_empty_changes_skip (queueEnabled : Bool) (maxSize : Nat)
    (delay : Int) (message : Nat) (commitResult : CommitResult)
    (scheduledTime : Option Int) (now : Int) (w : SchedulerWorld) :
    create_scheduled_commit queueEnabled maxSize delay [] message commitResult
      scheduledTime now w = w := by
  simp [create_scheduled_commit]

/-- Claim C9: stopping an already-stopped scheduler is a no-op returning
success, stop always leaves the scheduler not running and returns success,
and stop is idempotent. -/
theorem C9_stop_idempotent (s : SchedulerCtl) :
    (s.isRunning = false → stopScheduler s = (s, true))
    ∧ (stopScheduler s).1.isRunning = false
    ∧ (stopScheduler s).2 = true
    ∧ stopScheduler (stopScheduler s).1 = ((stopScheduler s).1, true) := by
  obtain ⟨r, ev⟩ := s
  cases r <;> simp [stopScheduler]

/-- Witness for C9 at the initial (stopped) control state. -/
theorem C9_stop_idempotent_witness :
    ((false : Bool) = false →
      stopScheduler ⟨false, false⟩ = (⟨false, false⟩, true))
    ∧ (stopScheduler ⟨false, false⟩).1.isRunning = false
    ∧ (stopScheduler ⟨false, false⟩).2 = true
    ∧ stopScheduler (stopScheduler ⟨false, false⟩).1
        = ((stopScheduler ⟨false, false⟩).1, true) :=
  C9_stop_idempotent ⟨false, false⟩

/-- Claim C4 (amended): for a valid quota and hour window, with the plan
computed at or before the window start, the generated plan has exactly the
drawn length n with minPerDay ≤ n ≤ maxPerDay, every generated timestamp
lies in the active window, and the list is sorted ascending.  The original
claim additionally asserted this for the timestamps actually scheduled
after the post-generation perturbation, which is refuted separately. -/
theorem C4_generated_plan_valid (minC maxC n : Int) (sh eh now : Nat)
    (vary : Bool) (jit : Nat → Int)
    (h1 : 0 ≤ minC) (h2 : minC ≤ n) (h3 : n ≤ maxC)
    (hwin : sh < eh) (hnow : now ≤ sh * 60) :
    ∃ ts, generate_commit_times n sh eh now vary jit = Except.ok ts
      ∧ (ts.length : Int) = n
      ∧ minC ≤ (ts.length : Int) ∧ (ts.length : Int) ≤ maxC
      ∧ (∀ t ∈ ts, (sh : ℚ) * 60 ≤ t ∧ t ≤ (eh : ℚ) * 60)
      ∧ ts.Sorted (· ≤ ·) := by
  have hbranch : ¬ sh * 60 < now := not_lt.mpr hnow
  have hse : ((sh : ℚ) * 60) ≤ ((eh : ℚ) * 60) := by
    have hle : (sh : ℚ) ≤ (eh : ℚ) := by exact_mod_cast le_of_lt hwin
    linarith
  have hn0 : 0 ≤ n := le_trans h1 h2
  have hlen :
      ((generate_commit_times_core n ((sh : ℚ) * 60) ((eh : ℚ) * 60) vary
          jit).length : Int) = n := by
    rw [generate_commit_times_core_length]
    exact Int.toNat_of_nonneg hn0
  refine ⟨_, ?_, hlen, ?_, ?_, ?_, ?_⟩
  · simp [generate_commit_times, hbranch]
  · rw [hlen]; exact h2
  · rw [hlen]; exact h3
  · intro t ht
    exact mem_generate_commit_times_core n _ _ vary jit hse t ht
  · exact sorted_generate_commit_times_core n _ _ vary jit

/-- Witness for C4 at quota drawn 2 from range 2..2, active hours 9 to 21,
computed at midnight, jitter draws all zero. -/
theorem C4_generated_plan_valid_witness :
    ∃ ts, generate_commit_times 2 9 21 0 false (fun _ => 0) = Except.ok ts
      ∧ (ts.length : Int) = 2
      ∧ (2 : Int) ≤ (ts.length : Int) ∧ (ts.length : Int) ≤ 2
      ∧ (∀ t ∈ ts, ((9 : Nat) : ℚ) * 60 ≤ t ∧ t ≤ ((21 : Nat) : ℚ) * 60)
      ∧ ts.Sorted (· ≤ ·) :=
  C4_generated_plan_valid 2 2 2 9 21 0 false (fun _ => 0) (by norm_num)
    (by norm_num) (by norm_num) (by norm_num) (by norm_num)

/-- Counterexample to claim C4 as stated: with the default configuration
flag stealth_mode.random_delays enabled, the timestamps actually scheduled
for execution are the generated ones shifted by an unclamped draw from
randint(0, 30).  With quota 2, window 9 to 21 and a legal draw of 30
minutes, the generated plan is 540 and 1260 minutes, but the scheduled
times are 570 and 1290 minutes, and 1290 lies outside the active window
(21:00 = 1260). -/
theorem C4_scheduled_time_outside_window :
    generate_commit_times 2 9 21 0 false (fun _ => 0)
      = Except.ok [(540 : ℚ), 1260]
    ∧ scheduledTimes true (fun _ => 30) [(540 : ℚ), 1260]
      = [(570 : ℚ), 1290]
    ∧ (0 : Int) ≤ 30 ∧ (30 : Int) ≤ 30
    ∧ ¬ ((1290 : ℚ) ≤ ((21 : Nat) : ℚ) * 60) := by
  refine ⟨?_, ?_, by norm_num, by norm_num, by norm_num⟩
  · simp [generate_commit_times, generate_commit_times_core, List.range_succ,
      List.insertionSort, List.orderedInsert]
    norm_num
  · simp [scheduledTimes]
    norm_num

/-- Counterexample to claim C5 as stated: plan generation can raise, and
an inverted compressed window does not produce an empty plan.  At
now = 655 (10:55) the source executes now.replace(minute = 55 + 5), which
raises ValueError; and at now = 1200 (20:00) with window 9 to 15 the
effective start 1205 exceeds the window end 900, yet the plan is the
non-empty singleton 1052.5 — a timestamp outside the active window. -/
theorem C5_raises_and_inverted_nonempty :
    generate_commit_times 1 9 21 655 false (fun _ => 0) = Except.error ()
    ∧ generate_commit_times 1 9 15 1200 false (fun _ => 0)
        = Except.ok [(2105 : ℚ) / 2]
    ∧ ((2105 : ℚ) / 2) ≠ 0
    ∧ ¬ ((2105 : ℚ) / 2 ≤ ((15 : Nat) : ℚ) * 60) := by
  refine ⟨?_, ?_, by norm_num, by norm_num⟩
  · simp [generate_commit_times]
  · simp [generate_commit_times, generate_commit_times_core]
    norm_num

/-- Claim C5 (amended): when the plan is computed after the window start
instant, the effective start becomes now + 5 minutes and the drawn count
is preserved (the plan length equals the drawn count regardless of the
compression, with an inverted window yielding clamped non-empty output),
but only when the minute-of-hour of now is at most 54; when the minute is
55 or later the computation raises ValueError instead of returning. -/
theorem C5_midday_compression (n : Int) (sh eh now : Nat) (vary : Bool)
    (jit : Nat → Int) (hpast : sh * 60 < now) :
    (now % 60 < 55 →
      generate_commit_times n sh eh now vary jit =
        Except.ok (generate_commit_times_core n ((now : ℚ) + 5)
          ((eh : ℚ) * 60) vary jit)
      ∧ ∀ ts, generate_commit_times n sh eh now vary jit = Except.ok ts →
          ts.length = n.toNat)
    ∧ (55 ≤ now % 60 →
      generate_commit_times n sh eh now vary jit = Except.error ()) := by
  constructor
  · intro hlt
    have hnotge : ¬ 55 ≤ now % 60 := not_le.mpr hlt
    constructor
    · simp [generate_commit_times, hpast, hnotge]
    · intro ts hts
      simp [generate_commit_times, hpast, hnotge] at hts
      rw [← hts]
      exact generate_commit_times_core_length n _ _ vary jit
  · intro hge
    simp [generate_commit_times, hpast, hge]

/-- Witness for C5 at a plan computed at 10:00 with window 9 to 21. -/
theorem C5_midday_compression_witness :
    ((600 : Nat) % 60 < 55 →
      generate_commit_times 3 9 21 600 false (fun _ => 0) =
        Except.ok (generate_commit_times_core 3 (((600 : Nat) : ℚ) + 5)
          (((21 : Nat) : ℚ) * 60) false (fun _ => 0))
      ∧ ∀ ts, generate_commit_times 3 9 21 600 false (fun _ => 0)
            = Except.ok ts → ts.length = (3 : Int).toNat)
    ∧ (55 ≤ (600 : Nat) % 60 →
      generate_commit_times 3 9 21 600 false (fun _ => 0)
        = Except.error ()) :=
  C5_midday_compression 3 9 21 600 false (fun _ => 0) (by norm_num)

theorem truncateQueue_map (f : α → β) (k : Nat) (l : List α) :
    (truncateQueue k l).map f = truncateQueue k (l.map f) := by
  simp only [truncateQueue, lastSlice, List.length_map]
  split
  · split
    · simp
    · simp [List.map_drop]
  · rfl

theorem truncateQueue_eq_drop (k : Nat) (hk0 : k ≠ 0) (l : List α)
    (h : k < l.length) : truncateQueue k l = l.drop (l.length - k) := by
  simp [truncateQueue, lastSlice, h, hk0]

theorem truncateQueue_eq_self (k : Nat) (l : List α) (h : l.length ≤ k) :
    truncateQueue k l = l := by
  simp [truncateQueue, not_lt.mpr h]

theorem truncateQueue_length_le (k : Nat) (hk : 1 ≤ k) (l : List α) :
    (truncateQueue k l).length ≤ k := by
  by_cases h : k < l.length
  · rw [truncateQueue_eq_drop k (by omega) l h]
    simp only [List.length_drop]
    omega
  · rw [truncateQueue_eq_self k l (by omega)]
    omega

theorem truncateQueue_append (k : Nat) (hk : 1 ≤ k) (x y : List α) :
    truncateQueue k (truncateQueue k x ++ y) = truncateQueue k (x ++ y) := by
  by_cases hx : k < x.length
  · have hk0 : k ≠ 0 := by omega
    rw [truncateQueue_eq_drop k hk0 x hx]
    have hsplit : x.drop (x.length - k) ++ y = (x ++ y).drop (x.length - k) :=
      (List.drop_append_of_le_length (by omega)).symm
    rcases Nat.eq_zero_or_pos y.length with hy | hy
    · have hynil : y = [] := List.length_eq_zero.mp hy
      subst hynil
      simp only [List.append_nil]
      have h1 : ((x.drop (x.length - k))).length ≤ k := by
        simp only [List.length_drop]
        omega
      rw [truncateQueue_eq_self k _ h1, truncateQueue_eq_drop k hk0 x hx]
    · rw [hsplit]
      have hlt1 : k < ((x ++ y).drop (x.length - k)).length := by
        simp only [List.length_drop, List.length_append]
        omega
      have hlt2 : k < (x ++ y).length := by
        simp only [List.length_append]
        omega
      rw [truncateQueue_eq_drop k hk0 _ hlt1, truncateQueue_eq_drop k hk0 _ hlt2,
        List.drop_drop]
      congr 1
      simp only [List.length_drop, List.length_append]
      omega
  · rw [truncateQueue_eq_self k x (by omega)]

theorem add_to_pending_queue_payloads (m : Nat) (delay : Int) (mr : Nat)
    (now : Int) (p e : Nat) (s : DataState) :
    ((add_to_pending_queue m delay mr now p e s).1.pending).map
        PendingItem.payload
      = truncateQueue m (s.pending.map PendingItem.payload ++ [p]) := by
  simp [add_to_pending_queue, truncateQueue_map]

theorem add_to_pending_queue_length_le (m : Nat) (hm : 1 ≤ m) (delay : Int)
    (mr : Nat) (now : Int) (p e : Nat) (s : DataState) :
    (add_to_pending_queue m delay mr now p e s).1.pending.length ≤ m := by
  simp only [add_to_pending_queue]
  exact truncateQueue_length_le m hm _

theorem enqueueSeq_payloads (m : Nat) (hm : 1 ≤ m) (delay : Int) (mr : Nat)
    (ps : List (Int × Nat)) (s : DataState) (hs : s.pending.length ≤ m) :
    (enqueueSeq m delay mr s ps).pending.map PendingItem.payload
      = truncateQueue m
          (s.pending.map PendingItem.payload ++ ps.map Prod.snd) := by
  induction ps generalizing s with
  | nil =>
      simp only [enqueueSeq, List.map_nil, List.append_nil]
      exact (truncateQueue_eq_self m _ (by simpa using hs)).symm
  | cons pr rest ih =>
      obtain ⟨now, p⟩ := pr
      have hle := add_to_pending_queue_length_le m hm delay mr now p 0 s
      simp only [enqueueSeq]
      rw [ih _ hle, add_to_pending_queue_payloads m delay mr now p 0 s,
        truncateQueue_append m hm]
      simp [List.append_assoc]

theorem enqueueSeq_errorLog (m : Nat) (delay : Int) (mr : Nat)
    (ps : List (Int × Nat)) (s : DataState) :
    (enqueueSeq m delay mr s ps).errorLog = s.errorLog := by
  induction ps generalizing s with
  | nil => rfl
  | cons pr rest ih =>
      obtain ⟨now, p⟩ := pr
      simp only [enqueueSeq]
      rw [ih]
      simp [add_to_pending_queue]

/-- Claim C2 (amended): for a positive capacity, the pending queue never
exceeds the capacity after any enqueue, and enqueueing maxQueueSize + 1
distinct items into an empty store leaves exactly maxQueueSize items with
the earliest-created item absent.  The original claim additionally
asserted that an eviction event is recorded; the source records nothing
(refuted separately). -/
theorem C2_capacity_eviction (m : Nat) (hm : 1 ≤ m) (delay : Int)
    (mr : Nat) :
    (∀ (s : DataState) (now : Int) (p e : Nat),
        (add_to_pending_queue m delay mr now p e s).1.pending.length ≤ m)
    ∧ (enqueueSeq m delay mr emptyDataState
        ((List.range (m + 1)).map (fun (i : Nat) => ((i : Int), i)))).pending.map
          PendingItem.payload = (List.range m).map (fun i => i + 1)
    ∧ (enqueueSeq m delay mr emptyDataState
        ((List.range (m + 1)).map (fun (i : Nat) => ((i : Int), i)))).pending.length
          = m
    ∧ 0 ∉ (enqueueSeq m delay mr emptyDataState
        ((List.range (m + 1)).map (fun (i : Nat) => ((i : Int), i)))).pending.map
          PendingItem.payload := by
  have hm0 : m ≠ 0 := by omega
  have hmap :
      (enqueueSeq m delay mr emptyDataState
        ((List.range (m + 1)).map (fun (i : Nat) => ((i : Int), i)))).pending.map
          PendingItem.payload = (List.range m).map (fun i => i + 1) := by
    rw [enqueueSeq_payloads m hm delay mr _ emptyDataState
      (by simp [emptyDataState])]
    have hsnd : ((List.range (m + 1)).map
        (fun (i : Nat) => ((i : Int), i))).map Prod.snd = List.range (m + 1) := by
      simp [List.map_map, Function.comp_def]
    simp only [emptyDataState, List.map_nil, List.nil_append, hsnd]
    rw [truncateQueue_eq_drop m hm0 _ (by simp)]
    simp only [List.length_range]
    have h1 : m + 1 - m = 1 := by omega
    rw [h1, List.range_succ_eq_map]
    simp [Nat.succ_eq_add_one]
  refine ⟨fun s now p e => add_to_pending_queue_length_le m hm delay mr now p e s,
    hmap, ?_, ?_⟩
  · have hl := congrArg List.length hmap
    simpa using hl
  · rw [hmap]
    simp

/-- Witness for C2 at capacity 2. -/
theorem C2_capacity_eviction_witness :
    (∀ (s : DataState) (now : Int) (p e : Nat),
        (add_to_pending_queue 2 30 3 now p e s).1.pending.length ≤ 2)
    ∧ (enqueueSeq 2 30 3 emptyDataState
        ((List.range 3).map (fun (i : Nat) => ((i : Int), i)))).pending.map
          PendingItem.payload = (List.range 2).map (fun i => i + 1)
    ∧ (enqueueSeq 2 30 3 emptyDataState
        ((List.range 3).map (fun (i : Nat) => ((i : Int), i)))).pending.length = 2
    ∧ 0 ∉ (enqueueSeq 2 30 3 emptyDataState
        ((List.range 3).map (fun (i : Nat) => ((i : Int), i)))).pending.map
          PendingItem.payload :=
  C2_capacity_eviction 2 (by norm_num) 30 3

/-- Counterexample to claim C2 as stated: the eviction is silent.  With
capacity 2, enqueueing three distinct items evicts the earliest one, yet
the error log stays empty and the dictionary returned by the evicting
call is identical to the one returned by a non-evicting call: no
observable event records the eviction. -/
theorem C2_eviction_unrecorded :
    (enqueueSeq 2 30 3 emptyDataState [(0, 0), (1, 1), (2, 2)]).pending.map
        PendingItem.payload = [1, 2]
    ∧ (enqueueSeq 2 30 3 emptyDataState [(0, 0), (1, 1), (2, 2)]).errorLog = []
    ∧ (add_to_pending_queue 2 30 3 5 9 0
        ⟨[⟨0, 0, 0, 0, 30, 3⟩, ⟨1, 1, 0, 0, 31, 3⟩], [], 2⟩).2
      = (add_to_pending_queue 2 30 3 5 9 0 ⟨[⟨0, 0, 0, 0, 30, 3⟩], [], 1⟩).2 := by
  refine ⟨by decide, by decide, by decide⟩


/-- Claim C7 (amended): a sweep invokes the callback exactly on the items
with nextRetry at or before now, in queue (stored list) order — the
invocation sequence is a sublist of the stored queue — and every item
that is not yet due survives the sweep.  The original claim asserted
ascending nextRetryAt processing order, which is refuted separately. -/
theorem C7_sweep_selection (cb : Nat → RetryOutcome) (delay now : Int)
    (q : List PendingItem) :
    (∀ it, it ∈ sweepInvocations now q ↔ it ∈ q ∧ it.nextRetry ≤ now)
    ∧ List.Sublist (sweepInvocations now q) q
    ∧ ∀ it ∈ q, ¬ it.nextRetry ≤ now →
        it ∈ (process_pending_commits cb delay now q).1 := by
  refine ⟨?_, ?_, ?_⟩
  · intro it
    simp [sweepInvocations, List.mem_filter]
  · exact List.filter_sublist _
  · intro it hmem hnotdue
    rw [process_pending_fst]
    exact List.mem_filterMap.mpr
      ⟨it, hmem, by simp [sweepItem, sweepItemStats, hnotdue]⟩

/-- Witness for C7: a not-yet-due item (nextRetry 50, sweep at 20)
survives the sweep. -/
theorem C7_sweep_selection_witness :
    (⟨0, 1, 0, 0, 50, 3⟩ : PendingItem) ∈
      (process_pending_commits (fun _ => RetryOutcome.failure) 30 20
        [⟨0, 1, 0, 0, 50, 3⟩]).1 :=
  (C7_sweep_selection (fun _ => RetryOutcome.failure) 30 20
      [⟨0, 1, 0, 0, 50, 3⟩]).2.2
    ⟨0, 1, 0, 0, 50, 3⟩ (by simp) (by decide)

/-- Counterexample to claim C7 as stated: the sweep processes due items in
stored-list order, not ascending nextRetryAt order.  A queue holding an
item with nextRetry 10 before an item with nextRetry 5, swept at 20,
invokes the callback on the nextRetry-10 item first, so the invocation
sequence is not ascending in nextRetryAt. -/
theorem C7_not_sorted_by_next_retry :
    sweepInvocations 20 [⟨0, 0, 0, 0, 10, 3⟩, ⟨0, 1, 0, 0, 5, 3⟩]
      = [⟨0, 0, 0, 0, 10, 3⟩, ⟨0, 1, 0, 0, 5, 3⟩]
    ∧ ¬ ((sweepInvocations 20
          [⟨0, 0, 0, 0, 10, 3⟩, ⟨0, 1, 0, 0, 5, 3⟩]).map
            PendingItem.nextRetry).Sorted (· ≤ ·) := by
  constructor
  · decide
  · intro hsorted
    have hmap : (sweepInvocations 20
        [⟨0, 0, 0, 0, 10, 3⟩, ⟨0, 1, 0, 0, 5, 3⟩]).map
          PendingItem.nextRetry = [10, 5] := by decide
    rw [hmap] at hsorted
    rcases List.sorted_cons.mp hsorted with ⟨h10, _⟩
    have h5 := h10 5 (by simp)
    omega

theorem run_single_failing (delay : Int) (nows : List Int) :
    ∀ it : PendingItem,
      it.retryCount < it.maxRetries →
      nows.length = it.maxRetries - it.retryCount →
      ConsecDue delay it.nextRetry nows →
      runRetrySweeps (fun _ => RetryOutcome.failure) delay [it] nows
        = ([], it.maxRetries - it.retryCount) := by
  induction nows with
  | nil =>
      intro it hlt hlen _
      exfalso
      simp only [List.length_nil] at hlen
      omega
  | cons now rest ih =>
      rintro ⟨a, p, e, c, nr, m⟩ hlt hlen hdue
      dsimp only at hlt hlen ⊢
      obtain ⟨hdue1, hdue2⟩ := hdue
      simp only [List.length_cons] at hlen
      by_cases hkeep : c + 1 < m
      · have hstep :
            process_pending_commits (fun _ => RetryOutcome.failure) delay now
              [⟨a, p, e, c, nr, m⟩]
              = ([⟨a, p, e, c + 1, now + delay, m⟩], ⟨1, 0, 1, 0⟩) := by
          simp [process_pending_commits, sweepItemStats, hdue1, hkeep,
            SweepStats.add]
        have hrest := ih ⟨a, p, e, c + 1, now + delay, m⟩
          (by dsimp only; omega) (by dsimp only; omega) (by exact hdue2)
        dsimp only at hrest
        simp only [runRetrySweeps, hstep, hrest, Prod.mk.injEq]
        refine ⟨trivial, ?_⟩
        dsimp only [SweepStats.processed]
        omega
      · have hstep :
            process_pending_commits (fun _ => RetryOutcome.failure) delay now
              [⟨a, p, e, c, nr, m⟩]
              = ([], ⟨1, 0, 1, 1⟩) := by
          simp [process_pending_commits, sweepItemStats, hdue1, hkeep,
            SweepStats.add]
        have hrest0 : rest = [] := by
          have hr : rest.length = 0 := by omega
          exact List.length_eq_zero.mp hr
        subst hrest0
        simp only [runRetrySweeps, hstep, Prod.mk.injEq]
        refine ⟨trivial, ?_⟩
        dsimp only [SweepStats.processed]
        omega

/-- Claim C1: a queued item whose retry callback fails (returns
non-success) at every due sweep is attempted exactly maxRetries times in
total — the first failing retry and maxRetries - 1 further retries — and
the sweep that performs the final attempt removes it permanently; once the
queue is empty no later sweep ever attempts or resurrects it (see
runRetrySweeps_nil_queue for the latter fact in general form). -/
theorem C1_exhaustion_after_max_attempts (delay : Int) (it : PendingItem)
    (nows : List Int) (hc : it.retryCount = 0) (hm : 1 ≤ it.maxRetries)
    (hlen : nows.length = it.maxRetries)
    (hdue : ConsecDue delay it.nextRetry nows) :
    runRetrySweeps (fun _ => RetryOutcome.failure) delay [it] nows
      = ([], it.maxRetries) := by
  have h := run_single_failing delay nows it (by omega) (by omega) hdue
  simpa [hc] using h

/-- Witness for C1: an item with maxRetries 2, due at both of two
consecutive sweeps, is attempted twice and the queue ends empty. -/
theorem C1_exhaustion_after_max_attempts_witness :
    runRetrySweeps (fun _ => RetryOutcome.failure) 5
      [⟨0, 7, 0, 0, 10, 2⟩] [10, 15] = ([], 2) :=
  C1_exhaustion_after_max_attempts 5 ⟨0, 7, 0, 0, 10, 2⟩ [10, 15] rfl
    (by norm_num) (by norm_num) (by simp [ConsecDue])

/-- Claim C10: an item whose retry callback raises (rather than returning
a failure result) is kept in the queue with retryCount and nextRetry
unchanged, is attempted on every sweep at which it is due, and is never
removed: after any number of such sweeps the queue still holds the
identical item and the callback has been invoked once per sweep. -/
theorem C10_raising_callback_kept (cb : Nat → RetryOutcome)
    (delay : Int) (it : PendingItem) (nows : List Int)
    (hraise : cb it.payload = RetryOutcome.raised)
    (hdue : ∀ now ∈ nows, it.nextRetry ≤ now) :
    runRetrySweeps cb delay [it] nows = ([it], nows.length) := by
  induction nows with
  | nil => rfl
  | cons now rest ih =>
      have h1 : it.nextRetry ≤ now := hdue now (by simp)
      have hstep : process_pending_commits cb delay now [it]
          = ([it], ⟨1, 0, 1, 0⟩) := by
        simp [process_pending_commits, sweepItemStats, h1, hraise,
          SweepStats.add]
      have hrest := ih (fun x hx => hdue x (by simp [hx]))
      simp only [runRetrySweeps, hstep, hrest, List.length_cons,
        Prod.mk.injEq]
      refine ⟨trivial, ?_⟩
      dsimp only [SweepStats.processed]
      omega

/-- Witness for C10: an item whose callback raises survives two due
sweeps unchanged and is attempted at each. -/
theorem C10_raising_callback_kept_witness :
    runRetrySweeps (fun _ => RetryOutcome.raised) 30
      [⟨0, 3, 0, 1, 10, 5⟩] [10, 20] = ([⟨0, 3, 0, 1, 10, 5⟩], 2) :=
  C10_raising_callback_kept (fun _ => RetryOutcome.raised) 30
    ⟨0, 3, 0, 1, 10, 5⟩ [10, 20] rfl (by decide)
